/-
Verification of the consolidation & enrichment pipeline of the
shusteri-automation repository.

The Python sources are shallowly embedded as follows:
  * `decimal.Decimal` values are modelled as rationals (`ℚ`); Python's
    `round(d, n)` on a `Decimal` quantizes with ROUND_HALF_EVEN, modelled
    by `rnd`.
  * Python `int` is modelled as `Int`; size keys of `qty_by_size` are `Nat`.
  * Python strings are modelled as `String`; where character-level work is
    needed (article normalization, regex-based extraction) we work on
    `List Char` via `String.toList`.
  * the dict `qty_by_size` is modelled as an association list
    `List (Nat × Int)`; the marking-code index dict is modelled as an
    association list preserving insertion order.
-/
import Mathlib

/-! ## Rounding (Python `round` on `Decimal`: ROUND_HALF_EVEN) -/

/-- Round a rational to the nearest integer, ties to even
(the rounding used by Python's `round` on `Decimal` values).  `x.num / x.den`
with Euclidean integer division and a positive denominator is `⌊x⌋`. -/
def roundHalfEven (x : ℚ) : ℤ :=
  let f : ℤ := x.num / (x.den : ℤ)
  let r : ℚ := x - f
  if r < 1/2 then f
  else if 1/2 < r then f + 1
  else if f % 2 = 0 then f else f + 1

/-- Python `round(x, n)` on a `Decimal`: round half to even at `n` decimal
places. -/
def rnd (n : ℕ) (x : ℚ) : ℚ :=
  (roundHalfEven (x * 10 ^ n) : ℚ) / 10 ^ n

/-! ## Character/string helpers shared by the embedding -/

/-- Whitespace characters recognized by Python's `str.strip` / `\s`
(restricted to the ASCII whitespace that can occur in the data). -/
def isPySpace (c : Char) : Bool :=
  c = ' ' || c = '\t' || c = '\n' || c = '\r' || c = '\x0b' || c = '\x0c'

/-- Remove the trailing whitespace run of a character list. -/
def dropTrailingWs (l : List Char) : List Char :=
  (l.reverse.dropWhile isPySpace).reverse

/-- Python `str.strip()`: remove leading and trailing whitespace. -/
def pyStrip (l : List Char) : List Char :=
  dropTrailingWs (l.dropWhile isPySpace)

/-- Lower-case a character list (ASCII; the packaging suffixes are ASCII). -/
def lowerList (l : List Char) : List Char := l.map Char.toLower

/-- Python `needle in hay` on strings, on character lists. -/
def containsSub (needle : List Char) : List Char → Bool
  | [] => needle.isPrefixOf []
  | c :: rest => needle.isPrefixOf (c :: rest) || containsSub needle rest

/-- Python `needle in hay` substring test on `String`s. -/
def strContains (hay needle : String) : Bool :=
  containsSub needle.toList hay.toList

/-! ## Data model (`src/models.py`) -/

/-- `ProductLine` (`src/models.py`): one parsed row of the Container-variant
input file.  `qty_by_size` is the dict `{size: qty}` as an association
list. -/
structure ProductLine where
  row_number : Int
  brand : String
  article : String
  code_raw : String
  hs_code_le24 : String
  hs_code_gt24 : String
  name : String
  material : String
  color : String
  lining : String
  sole : String
  heel_height : String
  composition : Option String
  price : ℚ
  boxes : Int
  net_weight_per_pair : ℚ
  gross_weight_per_box : ℚ
  qty_by_size : List (Nat × Int)

/-- `ProductLine.total_pairs`: sum of all size quantities. -/
def ProductLine.total_pairs (p : ProductLine) : Int :=
  (p.qty_by_size.map Prod.snd).sum

/-- `ProductLine.pairs_le24`: sum of quantities for sizes in `[35, 36, 37]`. -/
def ProductLine.pairs_le24 (p : ProductLine) : Int :=
  ((p.qty_by_size.filter (fun sq => sq.1 ∈ ([35, 36, 37] : List Nat))).map
    Prod.snd).sum

/-- `ProductLine.pairs_gt24`: sum of quantities for sizes in
`[38, 39, 40, 41, 42]`. -/
def ProductLine.pairs_gt24 (p : ProductLine) : Int :=
  ((p.qty_by_size.filter
      (fun sq => sq.1 ∈ ([38, 39, 40, 41, 42] : List Nat))).map
    Prod.snd).sum

/-- `ShipmentLine` (`src/models.py`): one parsed row of the Shipment-variant
input file. -/
structure ShipmentLine where
  row_number : Int
  article : String
  brand : String
  hs_code : String
  shoe_type : String
  material : String
  color : String
  lining : String
  sole : String
  heel_height : String
  shaft_height : String
  composition : Option String
  perforation : String
  size : Int
  halfpair_type : String
  halfpairs_loaded : Int
  box_group : Option Int
  boxes_in_group : Option Int
  net_weight_per_unit : ℚ
  gross_weight_per_box : Option ℚ
  box_volume : Option ℚ
  price : ℚ

/-- `ShipmentLine.total_net_weight = net_weight_per_unit × halfpairs_loaded`. -/
def ShipmentLine.total_net_weight (l : ShipmentLine) : ℚ :=
  l.net_weight_per_unit * (l.halfpairs_loaded : ℚ)

/-- `ShipmentLine.total_amount = price × halfpairs_loaded`. -/
def ShipmentLine.total_amount (l : ShipmentLine) : ℚ :=
  l.price * (l.halfpairs_loaded : ℚ)

/-- `ShipmentLine.insole_category`: always the "≤24cm" label. -/
def ShipmentLine.insole_category (_ : ShipmentLine) : String :=
  "длина стельки до 24см"

/-- `OutputLine` (`src/models.py`): one row of the generated documents. -/
structure OutputLine where
  brand : String
  hs_code : String
  article : String
  description : String
  color : String
  material : String
  lining : String
  sole : String
  heel_height : String
  insole_category : String
  quantity : Int
  net_weight : ℚ
  gross_weight : ℚ
  boxes : Int
  original_boxes : Int := 0
  price : ℚ
  amount : ℚ
  kiz_codes : List String := []
  shoe_type : Option String := none
  shaft_height : Option String := none
  halfpair_type : Option String := none
  perforation : Option String := none
  box_group : Option Int := none

/-- A default `OutputLine`, used only as the out-of-range default of
`List.getD` in theorem statements. -/
def defaultOutputLine : OutputLine where
  brand := ""
  hs_code := ""
  article := ""
  description := ""
  color := ""
  material := ""
  lining := ""
  sole := ""
  heel_height := ""
  insole_category := ""
  quantity := 0
  net_weight := 0
  gross_weight := 0
  boxes := 0
  price := 0
  amount := 0

/-! ## `DataProcessor` (`src/processor.py`) -/

namespace DataProcessor

/-- `DataProcessor._create_output_line` (`src/processor.py`): build one
document row from a product, a category (`"le24"`, `"gt24"` or `"all"`) and
the quantity of the category. -/
def create_output_line (product : ProductLine) (category : String)
    (quantity : Int) : OutputLine :=
  let hs_code :=
    if category = "le24" then product.hs_code_le24
    else if category = "gt24" then product.hs_code_gt24
    else product.hs_code_le24
  let insole_text :=
    if category = "le24" then "длина стельки до 24см"
    else if category = "gt24" then "длина стельки более 24см"
    else
      let sizes := product.qty_by_size.map Prod.fst
      match sizes.min?, sizes.max? with
      | some mn, some mx =>
          "все размеры " ++ toString mn ++ "-" ++ toString mx
      | _, _ => "все размеры"
  let net_weight : ℚ := product.net_weight_per_pair * (quantity : ℚ)
  let gross_weight : ℚ :=
    if product.total_pairs > 0 then
      (product.gross_weight_per_box * (product.boxes : ℚ) * (quantity : ℚ)) /
        (product.total_pairs : ℚ)
    else 0
  let boxes := product.boxes
  let amount : ℚ := product.price * (quantity : ℚ)
  { brand := product.brand
    hs_code := hs_code
    article := product.article
    description := product.name
    color := product.color
    material := product.material
    lining := product.lining
    sole := product.sole
    heel_height := product.heel_height
    insole_category := insole_text
    quantity := quantity
    net_weight := rnd 3 net_weight
    gross_weight := rnd 3 gross_weight
    boxes := if category = "le24" ∨ category = "all" then boxes else 0
    original_boxes := product.boxes
    price := product.price
    amount := rnd 2 amount
    kiz_codes := [] }

/-- The lines emitted for one product inside the loop of
`DataProcessor.process`: one `"all"` line when the two tariff codes agree,
otherwise a `"le24"` and/or a `"gt24"` line, each only when its quantity is
positive. -/
def splitProduct (product : ProductLine) : List OutputLine :=
  if product.hs_code_le24 = product.hs_code_gt24 then
    if product.total_pairs > 0 then
      [create_output_line product "all" product.total_pairs]
    else []
  else
    (if product.pairs_le24 > 0 then
      [create_output_line product "le24" product.pairs_le24]
    else []) ++
    (if product.pairs_gt24 > 0 then
      [create_output_line product "gt24" product.pairs_gt24]
    else [])

/-- `DataProcessor.process` (`src/processor.py`): the accumulation loop over
all products. -/
def process (products : List ProductLine) : List OutputLine :=
  products.foldl (fun output_lines product =>
    output_lines ++ splitProduct product) []

end DataProcessor

/-! ## `ShipmentProcessor` (`src/shipment_processor.py`) -/

namespace ShipmentProcessor

/-- `ShipmentProcessor._build_description`: the extended description string.
Python truthiness: an empty `shaft_height` string and an absent or empty
`composition` are skipped. -/
def build_description (line : ShipmentLine) : String :=
  let parts : List String :=
    [line.shoe_type,
     "верх:" ++ line.material,
     "цвет:" ++ line.color,
     "подкладка:" ++ line.lining,
     "подошва:" ++ line.sole,
     "каблук:" ++ line.heel_height] ++
    (if line.shaft_height ≠ "" then ["голенище:" ++ line.shaft_height]
     else []) ++
    [line.halfpair_type, line.insole_category] ++
    (match line.composition with
     | some c => if c ≠ "" then ["состав:" ++ c] else []
     | none => [])
  String.intercalate ", " parts

/-- `ShipmentProcessor._convert_to_output`: one output row per input row;
`x if x else 0` Python truthiness on the optional numeric fields is the
`Option.getD _ 0` below (a stored `0` is falsy and also yields `0`). -/
def convert_to_output (line : ShipmentLine) : OutputLine :=
  { brand := line.brand
    hs_code := line.hs_code
    article := line.article
    description := build_description line
    color := line.color
    material := line.material
    lining := line.lining
    sole := line.sole
    heel_height := line.heel_height
    insole_category := line.insole_category
    quantity := line.halfpairs_loaded
    net_weight := line.total_net_weight
    gross_weight := line.gross_weight_per_box.getD 0
    boxes := line.boxes_in_group.getD 0
    original_boxes := line.boxes_in_group.getD 0
    price := line.price
    amount := line.total_amount
    kiz_codes := []
    shoe_type := some line.shoe_type
    shaft_height := some line.shaft_height
    halfpair_type := some line.halfpair_type
    perforation := some line.perforation
    box_group := line.box_group }

/-- `ShipmentProcessor.process`: convert every input row (no filtering). -/
def process (lines : List ShipmentLine) : List OutputLine :=
  lines.map convert_to_output

end ShipmentProcessor

/-! ## `KMLoader` (`src/km_loader.py`)

The marking-code index `self._index : Dict[(str, int), List[str]]` is
modelled as an insertion-ordered association list. -/

abbrev KMIndex := List ((String × Int) × List String)

/-- Dict lookup `index[key]` / `key in index`. -/
def indexLookup : KMIndex → String × Int → Option (List String)
  | [], _ => none
  | (k, v) :: rest, key => if k = key then some v else indexLookup rest key

/-- `index.setdefault(key, []).append(km)`: append `km` to the list stored
under `key`, creating the entry at the end when absent. -/
def indexAppend : KMIndex → String × Int → String → KMIndex
  | [], key, km => [(key, [km])]
  | (k, v) :: rest, key, km =>
      if k = key then (k, v ++ [km]) :: rest
      else (k, v) :: indexAppend rest key km

namespace KMLoader

/-- The fixed list of packaging suffixes of `KMLoader._normalize_article`,
in source order. -/
def packaging_suffixes : List (List Char) :=
  [['P', 'R', 'G'], ['B', 'O', 'X'], ['P', 'K', 'G'], ['C', 'T', 'N'],
   ['P', 'C', 'S']]

/-- One pass of `re.sub(r'\s*' + suffix + r'$', '', s, flags=IGNORECASE)`:
when the string case-insensitively ends with the suffix, remove the suffix
and the whitespace run in front of it ( `\s*` is greedy and the match is
leftmost, so the entire run is removed); otherwise leave the string
unchanged.  At most one match is possible because the pattern is anchored
at the end. -/
def stripSuffixOnce (suf l : List Char) : List Char :=
  if lowerList suf <:+ lowerList l then
    dropTrailingWs (l.take (l.length - suf.length))
  else l

/-- `KMLoader._normalize_article` on a character list: strip the string,
then apply one `re.sub` pass per packaging suffix, in source order. -/
def normalize_articleL (l : List Char) : List Char :=
  if l = [] then l
  else packaging_suffixes.foldl (fun acc suf => stripSuffixOnce suf acc)
    (pyStrip l)

/-- `KMLoader._normalize_article` on a `String`. -/
def normalize_article (s : String) : String :=
  (normalize_articleL s.toList).asString

/-! ### `KMLoader._extract_article`

The three regex strategies are translated pattern by pattern.  The
character classes of Python's Unicode-aware regexes are restricted to the
alphabets that occur in the data: ASCII plus Cyrillic. -/

/-- Lower-case ASCII `A`–`Z` and Cyrillic `А`–`Я` (the case folding
performed by `re.IGNORECASE` on the characters used by the patterns). -/
def ruLower (c : Char) : Char :=
  if 'A' ≤ c ∧ c ≤ 'Z' then Char.ofNat (c.toNat + 32)
  else if 'А' ≤ c ∧ c ≤ 'Я' then Char.ofNat (c.toNat + 32)
  else c

/-- A Cyrillic letter `А`–`я` (the class `[А-Я]` under `re.IGNORECASE`). -/
def isRuLetter (c : Char) : Bool :=
  0x410 ≤ c.toNat && c.toNat ≤ 0x44F

/-- Word characters of Python's Unicode `\w`, restricted to the ASCII and
Cyrillic alphabets of the data. -/
def isWordChar (c : Char) : Bool :=
  c.isAlphanum || c = '_' || (0x400 ≤ c.toNat && c.toNat ≤ 0x4FF)

/-- The class `[A-Z0-9]` under `re.IGNORECASE`. -/
def isAsciiAlnum (c : Char) : Bool := c.isAlphanum

/-- The class `[A-Z0-9\-]` under `re.IGNORECASE`. -/
def isGroupChar (c : Char) : Bool := c.isAlphanum || c = '-'

/-- The terminator `(?:\s*[\(,]|\s+[А-Я])` of the first pattern, tested at
the position right after the captured group. -/
def matchTerm (l : List Char) : Bool :=
  let rest := l.dropWhile isPySpace
  (match rest with
   | c :: _ => c = '(' || c = ','
   | [] => false) ||
  ((match l with
    | c :: _ => isPySpace c
    | [] => false) &&
   (match rest with
    | c :: _ => isRuLetter c
    | [] => false))

/-- Lazy extension of the group `[A-Z0-9][A-Z0-9\-]+?`: starting from the
first captured character, extend one character at a time (shortest first)
until the terminator matches the remainder. -/
def lazyExtend (acc : List Char) : List Char → Option (List Char)
  | [] => none
  | c :: rest =>
      if isGroupChar c then
        if matchTerm rest then some (acc ++ [c])
        else lazyExtend (acc ++ [c]) rest
      else none

/-- Attempt of the first pattern
`арт\.[\s\W]*([A-Z0-9][A-Z0-9\-]+?)(?:\s*[\(,]|\s+[А-Я])` (IGNORECASE) at
one start position: the literal `арт.`, then the greedy non-word run
`[\s\W]*` (no backtracking is possible because the group starts with a
word character), then the lazily captured group. -/
def tryAt1 (l : List Char) : Option (List Char) :=
  match l with
  | a :: r :: t :: dot :: rest =>
      if ruLower a = 'а' ∧ ruLower r = 'р' ∧ ruLower t = 'т' ∧ dot = '.' then
        match rest.dropWhile (fun c => !isWordChar c) with
        | c :: rest' =>
            if isAsciiAlnum c then lazyExtend [c] rest' else none
        | [] => none
      else none
  | _ => none

/-- `re.search` of the first pattern: try every start position, leftmost
match wins. -/
def search1 : List Char → Option (List Char)
  | [] => none
  | c :: rest =>
      match tryAt1 (c :: rest) with
      | some g => some g
      | none => search1 rest

/-- Attempt of the second pattern
`\.[\s\W]*([A-Z]{1,4}[0-9\-]+[A-Za-z0-9\-]*)` (case sensitive) at one
start position.  Backtracking of `[A-Z]{1,4}` cannot help (the characters
before the end of the upper-case run are letters, not `[0-9\-]`), so the
match requires the full upper-case run to have length 1–4, followed by a
nonempty `[0-9\-]` run, followed by a greedy `[A-Za-z0-9\-]*` run. -/
def tryAt2 (l : List Char) : Option (List Char) :=
  match l with
  | '.' :: rest =>
      let r := rest.dropWhile (fun c => !isWordChar c)
      let ups := r.takeWhile (fun c => 'A' ≤ c && c ≤ 'Z')
      let r2 := r.dropWhile (fun c => 'A' ≤ c && c ≤ 'Z')
      if 1 ≤ ups.length ∧ ups.length ≤ 4 then
        let dds := r2.takeWhile (fun c => c.isDigit || c = '-')
        if dds ≠ [] then
          let r3 := r2.dropWhile (fun c => c.isDigit || c = '-')
          some (ups ++ dds ++
            r3.takeWhile (fun c =>
              c.isAlphanum || c = '-'))
        else none
      else none
  | _ => none

/-- `re.search` of the second pattern. -/
def search2 : List Char → Option (List Char)
  | [] => none
  | c :: rest =>
      match tryAt2 (c :: rest) with
      | some g => some g
      | none => search2 rest

/-- Upper-case ASCII letter (the case-sensitive class `[A-Z]`). -/
def isUpperAZ (c : Char) : Bool := 'A' ≤ c && c ≤ 'Z'

/-- The tail `[0-9\-]+[A-Z0-9]*` of the third pattern: a nonempty greedy
digit/dash run followed by a greedy upper-case-or-digit run. -/
def matchNum (r : List Char) : Option (List Char) :=
  let dd := r.takeWhile (fun c => c.isDigit || c = '-')
  if dd = [] then none
  else some (dd ++
    (r.drop dd.length).takeWhile (fun c => isUpperAZ c || c.isDigit))

/-- The tail `[A-Z]?[0-9\-]+[A-Z0-9]*` of the third pattern; the optional
`[A-Z]?` is greedy, so the variant consuming a letter is tried first. -/
def matchTail3 (r : List Char) : Option (List Char) :=
  match r with
  | c :: rest =>
      if isUpperAZ c then
        match matchNum rest with
        | some g => some (c :: g)
        | none => matchNum r
      else matchNum r
  | [] => none

/-- Backtracking of the greedy `[0-9]{2,}` of the third pattern: `dig` is
the full digit run, `after` the remainder; try consuming `d` digits, from
the full run down to 2. -/
def tryDigits (dig after : List Char) (d : Nat) : Option (List Char) :=
  if d < 2 then none
  else
    match matchTail3 (dig.drop d ++ after) with
    | some t => some (dig.take d ++ t)
    | none => tryDigits dig after (d - 1)
termination_by d
decreasing_by simp_wf; omega

/-- Attempt of the third pattern
`([A-Z]{1,2}[0-9]{2,}[A-Z]?[0-9\-]+[A-Z0-9]*)` at one start position with
exactly `k` leading upper-case letters. -/
def tryAt3k (k : Nat) (l : List Char) : Option (List Char) :=
  if (l.take k).length = k ∧ (l.take k).all isUpperAZ then
    let rest := l.drop k
    let dig := rest.takeWhile Char.isDigit
    match tryDigits dig (rest.drop dig.length) dig.length with
    | some t => some (l.take k ++ t)
    | none => none
  else none

/-- Attempt of the third pattern at one start position: `[A-Z]{1,2}` is
greedy, so two letters are tried before one. -/
def tryAt3 (l : List Char) : Option (List Char) :=
  match tryAt3k 2 l with
  | some g => some g
  | none => tryAt3k 1 l

/-- `re.search` of the third pattern. -/
def search3 : List Char → Option (List Char)
  | [] => none
  | c :: rest =>
      match tryAt3 (c :: rest) with
      | some g => some g
      | none => search3 rest

/-- `KMLoader._extract_article`: the three strategies in fixed priority
order.  Only the first strategy post-processes its group with `.strip()`
and `.rstrip('-')`. -/
def extract_article (nomenclature : String) : Option String :=
  match search1 nomenclature.toList with
  | some g =>
      some (((pyStrip g).reverse.dropWhile (fun c => c = '-')).reverse.asString)
  | none =>
      match search2 nomenclature.toList with
      | some g => some g.asString
      | none => (search3 nomenclature.toList).map List.asString

/-! ### `KMLoader._load` -/

/-- One row of the reference dataset after column renaming: `Номенклатура`,
`Размер`, `GTIN`, `КМ`.  An absent (`NaN`) marking code is `none`. -/
structure KMRow where
  nomenclature : String
  size : Int
  gtin : String
  km : Option String

/-- The body of the indexing loop of `KMLoader._load`: the row is indexed
only when the extracted article is truthy (present and nonempty) and the
code cell is not `NaN`; the key is `(article, int(size))` — the *extracted*
article, no normalization is applied here. -/
def buildStep (idx : KMIndex) (row : KMRow) : KMIndex :=
  match extract_article row.nomenclature, row.km with
  | some article, some km =>
      if article ≠ "" then indexAppend idx (article, row.size) km else idx
  | _, _ => idx

/-- The index built by the loop of `KMLoader._load`. -/
def buildIndex (rows : List KMRow) : KMIndex :=
  rows.foldl buildStep []

/-- `KMLoader._load`: raise `ValueError` when the dataframe has fewer than
4 columns, otherwise build the index. -/
def load (ncols : Nat) (rows : List KMRow) : Except String KMIndex :=
  if ncols < 4 then
    Except.error "Ожидается минимум 4 колонки"
  else Except.ok (buildIndex rows)

/-! ### Query phase -/

/-- `KMLoader.get_km_codes`: normalize the queried article, then extend the
result with the list stored under `(normalized, size)` for each requested
size in order. -/
def get_km_codes (idx : KMIndex) (article : String) (sizes : List Int) :
    List String :=
  let normalized := normalize_article article
  sizes.foldl (fun result size =>
    match indexLookup idx (normalized, size) with
    | some codes => result ++ codes
    | none => result) []

/-- `KMLoader.get_km_codes_for_category`: map the insole-category label to
a size list, then delegate. -/
def get_km_codes_for_category (idx : KMIndex) (article : String)
    (insole_category : String) : List String :=
  let sizes : List Int :=
    if strContains insole_category "до 24см" then [35, 36, 37]
    else if strContains insole_category "более 24см" then [38, 39, 40, 41]
    else [35, 36, 37, 38, 39, 40, 41]
  get_km_codes idx article sizes

end KMLoader

/-! ## Enrichment and orchestration (`run.py`) -/

/-- `ShusteriAutomation.enrich_with_km_codes` (`run.py`): attach the
category-based codes to each line whose lookup is nonempty; all other
fields are untouched (the Python code mutates only `line.kiz_codes`). -/
def enrich_with_km_codes (idx : KMIndex) (output_lines : List OutputLine) :
    List OutputLine :=
  output_lines.map (fun line =>
    let km_codes :=
      KMLoader.get_km_codes_for_category idx line.article line.insole_category
    if km_codes ≠ [] then { line with kiz_codes := km_codes } else line)

/-- The `try/except` around marking-code loading in
`ShusteriAutomation.process` (`run.py`): when `KMLoader` raises, the error
is logged and the batch continues with the unenriched lines. -/
def processWithKm (ncols : Nat) (rows : List KMLoader.KMRow)
    (output_lines : List OutputLine) : List OutputLine :=
  match KMLoader.load ncols rows with
  | Except.ok idx => enrich_with_km_codes idx output_lines
  | Except.error _ => output_lines

/-! ## Document generators (`src/generators/*.py`)

Each generator re-implements the same continuation test inline in its
`generate` loop; the loop state that has algorithmic content (running
totals, item numbering, the previous line, the per-line continuation
decisions) is embedded as a fold. -/

namespace InvoiceGenerator

/-- The inline `is_continuation` test of `InvoiceGenerator.generate`
(`src/generators/invoice.py`). -/
def is_continuation (prev_line : Option OutputLine) (line : OutputLine) :
    Bool :=
  match prev_line with
  | none => false
  | some prev =>
      line.article = prev.article &&
      strContains line.insole_category "более 24см" &&
      line.boxes = 0 &&
      strContains prev.insole_category "до 24см"

/-- The loop state of `InvoiceGenerator.generate`. -/
structure GenState where
  total_qty : Int
  total_net : ℚ
  total_gross : ℚ
  total_boxes : Int
  total_amount : ℚ
  item_number : Int
  prev_line : Option OutputLine
  flags : List Bool

/-- The initial loop state of `InvoiceGenerator.generate`. -/
def initState : GenState :=
  { total_qty := 0, total_net := 0, total_gross := 0, total_boxes := 0
    total_amount := 0, item_number := 0, prev_line := none, flags := [] }

/-- One iteration of the `for idx, line in enumerate(lines)` loop of
`InvoiceGenerator.generate`: the continuation decision, the item
numbering and the running totals (boxes are added only for
non-continuation lines). -/
def step (s : GenState) (line : OutputLine) : GenState :=
  let ic := is_continuation s.prev_line line
  { total_qty := s.total_qty + line.quantity
    total_net := s.total_net + line.net_weight
    total_gross := s.total_gross + line.gross_weight
    total_boxes := if ic then s.total_boxes else s.total_boxes + line.boxes
    total_amount := s.total_amount + line.amount
    item_number := if ic then s.item_number else s.item_number + 1
    prev_line := some line
    flags := s.flags ++ [ic] }

/-- The full data loop of `InvoiceGenerator.generate`. -/
def generateTotals (lines : List OutputLine) : GenState :=
  lines.foldl step initState

/-- The box-count cells written in column `I` by the merge loop of
`InvoiceGenerator.generate`: a continuation line merges its cell with the
previous row's and the merged cell is overwritten with the continuation
line's `original_boxes`; a non-continuation line with positive `boxes`
gets its own `boxes`; otherwise the cell stays empty. -/
def boxCells (lines : List OutputLine) : List (Option Int) :=
  (lines.foldl (fun (acc : List (Option Int) × Option OutputLine) line =>
    let ic := is_continuation acc.2 line
    if ic then
      (acc.1.dropLast ++ [some line.original_boxes, none], some line)
    else if line.boxes > 0 then
      (acc.1 ++ [some line.boxes], some line)
    else
      (acc.1 ++ [none], some line)) ([], none)).1

end InvoiceGenerator

namespace SpecificationGenerator

/-- The inline `is_continuation` test of `SpecificationGenerator.generate`
(`src/generators/specification.py`). -/
def is_continuation (prev_line : Option OutputLine) (line : OutputLine) :
    Bool :=
  match prev_line with
  | none => false
  | some prev =>
      line.article = prev.article &&
      strContains line.insole_category "более 24см" &&
      line.boxes = 0 &&
      strContains prev.insole_category "до 24см"

/-- The loop state of `SpecificationGenerator.generate`. -/
structure GenState where
  total_qty : Int
  total_net : ℚ
  total_gross : ℚ
  total_boxes : Int
  total_amount : ℚ
  item_number : Int
  prev_line : Option OutputLine
  flags : List Bool

/-- The initial loop state of `SpecificationGenerator.generate`. -/
def initState : GenState :=
  { total_qty := 0, total_net := 0, total_gross := 0, total_boxes := 0
    total_amount := 0, item_number := 0, prev_line := none, flags := [] }

/-- One iteration of the data loop of `SpecificationGenerator.generate`. -/
def step (s : GenState) (line : OutputLine) : GenState :=
  let ic := is_continuation s.prev_line line
  { total_qty := s.total_qty + line.quantity
    total_net := s.total_net + line.net_weight
    total_gross := s.total_gross + line.gross_weight
    total_boxes := if ic then s.total_boxes else s.total_boxes + line.boxes
    total_amount := s.total_amount + line.amount
    item_number := if ic then s.item_number else s.item_number + 1
    prev_line := some line
    flags := s.flags ++ [ic] }

/-- The full data loop of `SpecificationGenerator.generate`. -/
def generateTotals (lines : List OutputLine) : GenState :=
  lines.foldl step initState

end SpecificationGenerator

namespace PackingListGenerator

/-- The inline `is_continuation` test of `PackingListGenerator.generate`
(`src/generators/packing_list.py`). -/
def is_continuation (prev_line : Option OutputLine) (line : OutputLine) :
    Bool :=
  match prev_line with
  | none => false
  | some prev =>
      line.article = prev.article &&
      strContains line.insole_category "более 24см" &&
      line.boxes = 0 &&
      strContains prev.insole_category "до 24см"

/-- The loop state of `PackingListGenerator.generate` (the packing list
keeps no running amount). -/
structure GenState where
  total_qty : Int
  total_net : ℚ
  total_gross : ℚ
  total_boxes : Int
  item_number : Int
  prev_line : Option OutputLine
  flags : List Bool

/-- The initial loop state of `PackingListGenerator.generate`. -/
def initState : GenState :=
  { total_qty := 0, total_net := 0, total_gross := 0, total_boxes := 0
    item_number := 0, prev_line := none, flags := [] }

/-- One iteration of the data loop of `PackingListGenerator.generate`. -/
def step (s : GenState) (line : OutputLine) : GenState :=
  let ic := is_continuation s.prev_line line
  { total_qty := s.total_qty + line.quantity
    total_net := s.total_net + line.net_weight
    total_gross := s.total_gross + line.gross_weight
    total_boxes := if ic then s.total_boxes else s.total_boxes + line.boxes
    item_number := if ic then s.item_number else s.item_number + 1
    prev_line := some line
    flags := s.flags ++ [ic] }

/-- The full data loop of `PackingListGenerator.generate`. -/
def generateTotals (lines : List OutputLine) : GenState :=
  lines.foldl step initState

end PackingListGenerator

/-! ## Specification-side descriptions of the continuation pass

These two definitions follow the words of the specification (§4.3): the
continuation decision is a pure function of the two adjacent lines only,
and the running box total counts a merged pair exactly once, via the first
line's contribution. -/

/-- Position-wise continuation decisions, computed only from each line and
its immediate predecessor. -/
def adjFlags : Option OutputLine → List OutputLine → List Bool
  | _, [] => []
  | p, l :: rest =>
      InvoiceGenerator.is_continuation p l :: adjFlags (some l) rest

/-- Running box total that adds a line's rendered boxes exactly when the
line is not a continuation of its immediate predecessor. -/
def adjBoxTotal : Option OutputLine → List OutputLine → Int
  | _, [] => 0
  | p, l :: rest =>
      (if InvoiceGenerator.is_continuation p l then 0 else l.boxes) +
        adjBoxTotal (some l) rest

/-! ## Lemmas about the generator loops -/

/-- The three inline continuation tests are the same function (invoice vs
specification). -/
theorem spec_is_continuation_eq (p : Option OutputLine) (l : OutputLine) :
    SpecificationGenerator.is_continuation p l =
      InvoiceGenerator.is_continuation p l := rfl

/-- The three inline continuation tests are the same function (invoice vs
packing list). -/
theorem pack_is_continuation_eq (p : Option OutputLine) (l : OutputLine) :
    PackingListGenerator.is_continuation p l =
      InvoiceGenerator.is_continuation p l := rfl

/-- The flags accumulated by the invoice loop are the adjacent-pair
decisions. -/
theorem invoice_foldl_flags (lines : List OutputLine) :
    ∀ s : InvoiceGenerator.GenState,
      (List.foldl InvoiceGenerator.step s lines).flags =
        s.flags ++ adjFlags s.prev_line lines := by
  induction lines with
  | nil => intro s; simp [adjFlags]
  | cons l rest ih =>
      intro s
      rw [List.foldl_cons, ih]
      simp [adjFlags, InvoiceGenerator.step]

/-- The box total accumulated by the invoice loop adds each line's boxes
exactly when the line is not a continuation. -/
theorem invoice_foldl_total_boxes (lines : List OutputLine) :
    ∀ s : InvoiceGenerator.GenState,
      (List.foldl InvoiceGenerator.step s lines).total_boxes =
        s.total_boxes + adjBoxTotal s.prev_line lines := by
  induction lines with
  | nil => intro s; simp [adjBoxTotal]
  | cons l rest ih =>
      intro s
      rw [List.foldl_cons, ih]
      simp only [adjBoxTotal, InvoiceGenerator.step]
      split <;> omega

/-- The flags accumulated by the specification loop are the adjacent-pair
decisions. -/
theorem specification_foldl_flags (lines : List OutputLine) :
    ∀ s : SpecificationGenerator.GenState,
      (List.foldl SpecificationGenerator.step s lines).flags =
        s.flags ++ adjFlags s.prev_line lines := by
  induction lines with
  | nil => intro s; simp [adjFlags]
  | cons l rest ih =>
      intro s
      rw [List.foldl_cons, ih]
      simp [adjFlags, SpecificationGenerator.step, spec_is_continuation_eq]

/-- The box total accumulated by the specification loop. -/
theorem specification_foldl_total_boxes (lines : List OutputLine) :
    ∀ s : SpecificationGenerator.GenState,
      (List.foldl SpecificationGenerator.step s lines).total_boxes =
        s.total_boxes + adjBoxTotal s.prev_line lines := by
  induction lines with
  | nil => intro s; simp [adjBoxTotal]
  | cons l rest ih =>
      intro s
      rw [List.foldl_cons, ih]
      simp only [adjBoxTotal, SpecificationGenerator.step,
        spec_is_continuation_eq]
      split <;> omega

/-- The flags accumulated by the packing-list loop are the adjacent-pair
decisions. -/
theorem packing_foldl_flags (lines : List OutputLine) :
    ∀ s : PackingListGenerator.GenState,
      (List.foldl PackingListGenerator.step s lines).flags =
        s.flags ++ adjFlags s.prev_line lines := by
  induction lines with
  | nil => intro s; simp [adjFlags]
  | cons l rest ih =>
      intro s
      rw [List.foldl_cons, ih]
      simp [adjFlags, PackingListGenerator.step, pack_is_continuation_eq]

/-- The box total accumulated by the packing-list loop. -/
theorem packing_foldl_total_boxes (lines : List OutputLine) :
    ∀ s : PackingListGenerator.GenState,
      (List.foldl PackingListGenerator.step s lines).total_boxes =
        s.total_boxes + adjBoxTotal s.prev_line lines := by
  induction lines with
  | nil => intro s; simp [adjBoxTotal]
  | cons l rest ih =>
      intro s
      rw [List.foldl_cons, ih]
      simp only [adjBoxTotal, PackingListGenerator.step,
        pack_is_continuation_eq]
      split <;> omega

/-- Indexing the adjacent-pair decisions: at a positive position the
decision is the continuation test of the line and its predecessor. -/
theorem adjFlags_getD (lines : List OutputLine) :
    ∀ (p : Option OutputLine) (i : Nat), i + 1 < lines.length →
      (adjFlags p lines).getD (i + 1) false =
        InvoiceGenerator.is_continuation
          (some (lines.getD i defaultOutputLine))
          (lines.getD (i + 1) defaultOutputLine) := by
  induction lines with
  | nil => intro p i h; simp at h
  | cons l rest ih =>
      intro p i h
      cases i with
      | zero =>
          cases rest with
          | nil => simp at h
          | cons r rest' => simp [adjFlags]
      | succ j =>
          have h' : j + 1 < rest.length := by
            simpa using h
          simpa [adjFlags] using ih (some l) j h'

/-- The first line of a document is never a continuation. -/
theorem adjFlags_getD_zero (lines : List OutputLine) :
    (adjFlags none lines).getD 0 false = false := by
  cases lines with
  | nil => simp [adjFlags]
  | cons l rest => simp [adjFlags, InvoiceGenerator.is_continuation]

/-- Unfolding of the continuation test against a present predecessor: the
four conditions of the specification. -/
theorem is_continuation_iff (prev line : OutputLine) :
    InvoiceGenerator.is_continuation (some prev) line = true ↔
      (line.article = prev.article ∧
       strContains line.insole_category "более 24см" = true ∧
       line.boxes = 0 ∧
       strContains prev.insole_category "до 24см" = true) := by
  simp [InvoiceGenerator.is_continuation, and_assoc]

/-- Concrete first line (≤24cm half) used to witness the continuation rule. -/
def c2line1 : OutputLine :=
  { defaultOutputLine with
      article := "A1", insole_category := "длина стельки до 24см",
      boxes := 4, original_boxes := 4 }

/-- Concrete second line (>24cm half) used to witness the continuation
rule. -/
def c2line2 : OutputLine :=
  { defaultOutputLine with
      article := "A1", insole_category := "длина стельки более 24см",
      boxes := 0, original_boxes := 4 }

/-- C2: in the invoice loop, a line is classified as a continuation iff the
four adjacent-pair conditions hold, the first line never is one, the
running box total adds a line's rendered boxes exactly when the line is
not a continuation, and a continuation line's own rendered boxes are 0. -/
theorem c2_continuation_rule (lines : List OutputLine) (i : Nat)
    (h : i + 1 < lines.length) :
    ((InvoiceGenerator.generateTotals lines).flags.getD (i + 1) false = true ↔
      ((lines.getD (i + 1) defaultOutputLine).article =
         (lines.getD i defaultOutputLine).article ∧
       strContains (lines.getD (i + 1) defaultOutputLine).insole_category
         "более 24см" = true ∧
       (lines.getD (i + 1) defaultOutputLine).boxes = 0 ∧
       strContains (lines.getD i defaultOutputLine).insole_category
         "до 24см" = true)) ∧
    (InvoiceGenerator.generateTotals lines).flags.getD 0 false = false ∧
    (InvoiceGenerator.generateTotals lines).total_boxes =
      adjBoxTotal none lines ∧
    ((InvoiceGenerator.generateTotals lines).flags.getD (i + 1) false = true →
      (lines.getD (i + 1) defaultOutputLine).boxes = 0) := by
  have hfl : (InvoiceGenerator.generateTotals lines).flags =
      adjFlags none lines := by
    simpa [InvoiceGenerator.initState] using
      invoice_foldl_flags lines InvoiceGenerator.initState
  have hbx : (InvoiceGenerator.generateTotals lines).total_boxes =
      adjBoxTotal none lines := by
    simpa [InvoiceGenerator.initState] using
      invoice_foldl_total_boxes lines InvoiceGenerator.initState
  have hidx := adjFlags_getD lines none i h
  refine ⟨?_, ?_, hbx, ?_⟩
  · rw [hfl, hidx, is_continuation_iff]
  · rw [hfl]; exact adjFlags_getD_zero lines
  · intro ht
    rw [hfl, hidx, is_continuation_iff] at ht
    exact ht.2.2.1

/-- Witness for C2 at a concrete merged pair. -/
theorem c2_continuation_rule_witness :
    (((InvoiceGenerator.generateTotals [c2line1, c2line2]).flags.getD (0 + 1)
        false = true ↔
      (([c2line1, c2line2].getD (0 + 1) defaultOutputLine).article =
         ([c2line1, c2line2].getD 0 defaultOutputLine).article ∧
       strContains
         ([c2line1, c2line2].getD (0 + 1) defaultOutputLine).insole_category
         "более 24см" = true ∧
       ([c2line1, c2line2].getD (0 + 1) defaultOutputLine).boxes = 0 ∧
       strContains
         ([c2line1, c2line2].getD 0 defaultOutputLine).insole_category
         "до 24см" = true)) ∧
    (InvoiceGenerator.generateTotals [c2line1, c2line2]).flags.getD 0 false =
      false ∧
    (InvoiceGenerator.generateTotals [c2line1, c2line2]).total_boxes =
      adjBoxTotal none [c2line1, c2line2] ∧
    ((InvoiceGenerator.generateTotals [c2line1, c2line2]).flags.getD (0 + 1)
        false = true →
      ([c2line1, c2line2].getD (0 + 1) defaultOutputLine).boxes = 0)) :=
  c2_continuation_rule [c2line1, c2line2] 0 (by decide)

/-- C5: the three renderers compute identical continuation decisions — each
loop's flags equal the adjacent-pair decisions, a pure function of each
line and its immediate predecessor — and they report equal box totals, so
independent passes over the same sequence agree. -/
theorem c5_renderers_agree (prev : Option OutputLine) (line : OutputLine)
    (lines : List OutputLine) :
    (SpecificationGenerator.is_continuation prev line =
       InvoiceGenerator.is_continuation prev line ∧
     PackingListGenerator.is_continuation prev line =
       InvoiceGenerator.is_continuation prev line) ∧
    ((InvoiceGenerator.generateTotals lines).flags = adjFlags none lines ∧
     (SpecificationGenerator.generateTotals lines).flags =
       adjFlags none lines ∧
     (PackingListGenerator.generateTotals lines).flags =
       adjFlags none lines) ∧
    ((SpecificationGenerator.generateTotals lines).total_boxes =
       (InvoiceGenerator.generateTotals lines).total_boxes ∧
     (PackingListGenerator.generateTotals lines).total_boxes =
       (InvoiceGenerator.generateTotals lines).total_boxes) := by
  have h1 : (InvoiceGenerator.generateTotals lines).flags =
      adjFlags none lines := by
    simpa [InvoiceGenerator.initState] using
      invoice_foldl_flags lines InvoiceGenerator.initState
  have h2 : (SpecificationGenerator.generateTotals lines).flags =
      adjFlags none lines := by
    simpa [SpecificationGenerator.initState] using
      specification_foldl_flags lines SpecificationGenerator.initState
  have h3 : (PackingListGenerator.generateTotals lines).flags =
      adjFlags none lines := by
    simpa [PackingListGenerator.initState] using
      packing_foldl_flags lines PackingListGenerator.initState
  have b1 : (InvoiceGenerator.generateTotals lines).total_boxes =
      adjBoxTotal none lines := by
    simpa [InvoiceGenerator.initState] using
      invoice_foldl_total_boxes lines InvoiceGenerator.initState
  have b2 : (SpecificationGenerator.generateTotals lines).total_boxes =
      adjBoxTotal none lines := by
    simpa [SpecificationGenerator.initState] using
      specification_foldl_total_boxes lines
        SpecificationGenerator.initState
  have b3 : (PackingListGenerator.generateTotals lines).total_boxes =
      adjBoxTotal none lines := by
    simpa [PackingListGenerator.initState] using
      packing_foldl_total_boxes lines
        PackingListGenerator.initState
  exact ⟨⟨spec_is_continuation_eq prev line, pack_is_continuation_eq prev line⟩,
    ⟨h1, h2, h3⟩, ⟨b2.trans b1.symm, b3.trans b1.symm⟩⟩

/-! ## Lemmas about `DataProcessor` -/

/-- Processing a single product yields exactly its split lines. -/
theorem DataProcessor.process_singleton (p : ProductLine) :
    DataProcessor.process [p] = DataProcessor.splitProduct p := by
  simp [DataProcessor.process]

/-- When every size key lies in 35–42 (as the parser guarantees), the two
band sums partition the total. -/
theorem sum_filter_partition :
    ∀ l : List (Nat × Int),
      (∀ sq ∈ l, sq.1 ∈ ([35, 36, 37, 38, 39, 40, 41, 42] : List Nat)) →
      ((l.filter (fun sq => sq.1 ∈ ([35, 36, 37] : List Nat))).map
          Prod.snd).sum +
        ((l.filter
            (fun sq => sq.1 ∈ ([38, 39, 40, 41, 42] : List Nat))).map
          Prod.snd).sum =
        (l.map Prod.snd).sum := by
  intro l
  induction l with
  | nil => simp
  | cons x rest ih =>
      intro h
      have hx := h x (List.mem_cons_self x rest)
      have ihr := ih (fun sq hs => h sq (List.mem_cons_of_mem x hs))
      obtain ⟨s, q⟩ := x
      simp only [List.mem_cons, List.not_mem_nil, or_false] at hx
      rcases hx with rfl | rfl | rfl | rfl | rfl | rfl | rfl | rfl <;>
        simp [List.filter_cons] at ihr ⊢ <;> omega

/-- The band sums partition the total quantity of a product whose size keys
all lie in 35–42. -/
theorem pairs_partition (p : ProductLine)
    (hsz : ∀ sq ∈ p.qty_by_size,
      sq.1 ∈ ([35, 36, 37, 38, 39, 40, 41, 42] : List Nat)) :
    p.pairs_le24 + p.pairs_gt24 = p.total_pairs :=
  sum_filter_partition p.qty_by_size hsz

/-- C1: for a Container record with differing tariff codes, at most two
lines are emitted: the ≤24cm line (quantity = small-band sum, tariff code =
small code, rendered boxes = declared boxes) iff the small-band sum is
positive, and the >24cm line (quantity = large-band sum, tariff code =
large code, rendered boxes = 0) iff the large-band sum is positive; every
emitted line keeps `original_boxes` = declared boxes, and when both lines
are emitted their quantities sum to the record total. -/
theorem c1_band_split (p : ProductLine)
    (hcode : p.hs_code_le24 ≠ p.hs_code_gt24)
    (hsz : ∀ sq ∈ p.qty_by_size,
      sq.1 ∈ ([35, 36, 37, 38, 39, 40, 41, 42] : List Nat)) :
    (DataProcessor.process [p]).length ≤ 2 ∧
    (∀ l ∈ DataProcessor.process [p], l.original_boxes = p.boxes) ∧
    (0 < p.pairs_le24 ∧ 0 < p.pairs_gt24 →
      (DataProcessor.process [p]).length = 2 ∧
      ((DataProcessor.process [p]).getD 0 defaultOutputLine).hs_code =
        p.hs_code_le24 ∧
      ((DataProcessor.process [p]).getD 0 defaultOutputLine).quantity =
        p.pairs_le24 ∧
      ((DataProcessor.process [p]).getD 0 defaultOutputLine).boxes =
        p.boxes ∧
      ((DataProcessor.process [p]).getD 1 defaultOutputLine).hs_code =
        p.hs_code_gt24 ∧
      ((DataProcessor.process [p]).getD 1 defaultOutputLine).quantity =
        p.pairs_gt24 ∧
      ((DataProcessor.process [p]).getD 1 defaultOutputLine).boxes = 0 ∧
      ((DataProcessor.process [p]).getD 0 defaultOutputLine).quantity +
          ((DataProcessor.process [p]).getD 1 defaultOutputLine).quantity =
        p.total_pairs) ∧
    (0 < p.pairs_le24 ∧ ¬ 0 < p.pairs_gt24 →
      (DataProcessor.process [p]).length = 1 ∧
      ((DataProcessor.process [p]).getD 0 defaultOutputLine).hs_code =
        p.hs_code_le24 ∧
      ((DataProcessor.process [p]).getD 0 defaultOutputLine).quantity =
        p.pairs_le24 ∧
      ((DataProcessor.process [p]).getD 0 defaultOutputLine).boxes =
        p.boxes) ∧
    (¬ 0 < p.pairs_le24 ∧ 0 < p.pairs_gt24 →
      (DataProcessor.process [p]).length = 1 ∧
      ((DataProcessor.process [p]).getD 0 defaultOutputLine).hs_code =
        p.hs_code_gt24 ∧
      ((DataProcessor.process [p]).getD 0 defaultOutputLine).quantity =
        p.pairs_gt24 ∧
      ((DataProcessor.process [p]).getD 0 defaultOutputLine).boxes = 0) ∧
    (¬ 0 < p.pairs_le24 ∧ ¬ 0 < p.pairs_gt24 →
      DataProcessor.process [p] = []) := by
  have hsum := pairs_partition p hsz
  rw [DataProcessor.process_singleton]
  simp only [DataProcessor.splitProduct, if_neg hcode]
  by_cases hle : p.pairs_le24 > 0 <;> by_cases hgt : p.pairs_gt24 > 0 <;>
    (simp [hle, hgt, DataProcessor.create_output_line]; try omega)

/-- Rounding maps 0 to 0. -/
theorem rnd_zero (n : ℕ) : rnd n 0 = 0 := by
  simp [rnd, roundHalfEven]

/-- C4: the split line's gross weight is
`(gross_weight_per_box × boxes × quantity) / total_pairs` rounded to 3
decimals when the record total is positive, and 0 when the record total is
0 (the guard branch, no division is evaluated). -/
theorem c4_gross_weight (p : ProductLine) (category : String)
    (quantity : Int) :
    (0 < p.total_pairs →
      (DataProcessor.create_output_line p category quantity).gross_weight =
        rnd 3 ((p.gross_weight_per_box * (p.boxes : ℚ) * (quantity : ℚ)) /
          (p.total_pairs : ℚ))) ∧
    (p.total_pairs = 0 →
      (DataProcessor.create_output_line p category quantity).gross_weight =
        0) := by
  constructor
  · intro h
    simp [DataProcessor.create_output_line, h]
  · intro h
    simp [DataProcessor.create_output_line, h, rnd_zero]

/-- The Container product of the specification's worked example
(tariff codes `6403911100/6403911800`, sizes `{35:10, 36:10, 38:20}`,
price 10, net weight/pair 0.5, boxes 2, gross weight/box 15). -/
def p1 : ProductLine where
  row_number := 2
  brand := "V.I.KONTY"
  article := "GL24136-1"
  code_raw := "6403911100/6403911800"
  hs_code_le24 := "6403911100"
  hs_code_gt24 := "6403911800"
  name := "Туфли женские"
  material := "нат.кожа"
  color := "чёрный"
  lining := "текстиль"
  sole := "ТЭП"
  heel_height := "низкий"
  composition := none
  price := 10
  boxes := 2
  net_weight_per_pair := 1/2
  gross_weight_per_box := 15
  qty_by_size := [(35, 10), (36, 10), (38, 20)]

/-- A Container product with zero total quantity. -/
def p8 : ProductLine where
  row_number := 3
  brand := "V.I.KONTY"
  article := "GL24136-2"
  code_raw := "6403911100/6403911800"
  hs_code_le24 := "6403911100"
  hs_code_gt24 := "6403911800"
  name := "Туфли женские"
  material := "нат.кожа"
  color := "чёрный"
  lining := "текстиль"
  sole := "ТЭП"
  heel_height := "низкий"
  composition := none
  price := 10
  boxes := 2
  net_weight_per_pair := 1/2
  gross_weight_per_box := 15
  qty_by_size := [(35, 0)]

/-- Witness for C1 at the specification's worked example. -/
theorem c1_band_split_witness : (DataProcessor.process [p1]).length ≤ 2 :=
  (c1_band_split p1 (by decide) (by decide)).1

/-- Witness for C4: the positive-total branch at the worked example and the
zero-total branch at a zero-quantity product. -/
theorem c4_gross_weight_witness :
    ((DataProcessor.create_output_line p1 "le24" 20).gross_weight =
      rnd 3 ((p1.gross_weight_per_box * (p1.boxes : ℚ) * ((20 : Int) : ℚ)) /
        (p1.total_pairs : ℚ))) ∧
    ((DataProcessor.create_output_line p8 "le24" 0).gross_weight = 0) :=
  ⟨(c4_gross_weight p1 "le24" 20).1 (by decide),
   (c4_gross_weight p8 "le24" 0).2 (by decide)⟩

deriving instance DecidableEq for OutputLine

/-- An element read with an in-range index and a default is a member. -/
theorem getD_mem {α : Type} :
    ∀ (l : List α) (n : Nat) (d : α), n < l.length → l.getD n d ∈ l
  | a :: _, 0, _, _ => List.mem_cons_self a _
  | a :: l, n + 1, d, h =>
      List.mem_cons_of_mem a (getD_mem l n d (Nat.lt_of_succ_lt_succ h))

/-- Forget the marking codes of a line (used to state that enrichment
touches nothing else). -/
def eraseCodes (l : OutputLine) : OutputLine := { l with kiz_codes := [] }

/-- Membership in the accumulation loop of `DataProcessor.process`. -/
theorem mem_process_foldl :
    ∀ (ps : List ProductLine) (acc : List OutputLine) (l : OutputLine),
      l ∈ ps.foldl (fun out p => out ++ DataProcessor.splitProduct p) acc →
      l ∈ acc ∨ ∃ p ∈ ps, l ∈ DataProcessor.splitProduct p := by
  intro ps
  induction ps with
  | nil => intro acc l h; exact Or.inl h
  | cons p rest ih =>
      intro acc l h
      rcases ih (acc ++ DataProcessor.splitProduct p) l h with h' | ⟨q, hq, hl⟩
      · rcases List.mem_append.mp h' with h'' | h''
        · exact Or.inl h''
        · exact Or.inr ⟨p, List.mem_cons_self p rest, h''⟩
      · exact Or.inr ⟨q, List.mem_cons_of_mem p hq, hl⟩

/-- Every line of a product split is produced by `create_output_line`. -/
theorem mem_splitProduct (p : ProductLine) (l : OutputLine)
    (h : l ∈ DataProcessor.splitProduct p) :
    ∃ cat q, l = DataProcessor.create_output_line p cat q := by
  unfold DataProcessor.splitProduct at h
  split_ifs at h <;> simp at h <;>
    first
      | exact ⟨_, _, h⟩
      | rcases h with h | h <;> exact ⟨_, _, h⟩

/-- Every line emitted by `DataProcessor.process` is produced by
`create_output_line`. -/
theorem mem_process (ps : List ProductLine) (l : OutputLine)
    (h : l ∈ DataProcessor.process ps) :
    ∃ p cat q, l = DataProcessor.create_output_line p cat q := by
  rcases mem_process_foldl ps [] l h with h' | ⟨p, _, hl⟩
  · simp at h'
  · obtain ⟨cat, q, rfl⟩ := mem_splitProduct p l hl
    exact ⟨p, cat, q, rfl⟩

/-- Enrichment changes a single line only in its `kiz_codes` field. -/
theorem enrich_eraseCodes (idx : KMIndex) (ls : List OutputLine) :
    (enrich_with_km_codes idx ls).map eraseCodes = ls.map eraseCodes := by
  unfold enrich_with_km_codes
  rw [List.map_map]
  apply List.map_congr_left
  intro l _
  by_cases h : KMLoader.get_km_codes_for_category idx l.article
      l.insole_category ≠ [] <;> simp [Function.comp, h, eraseCodes]

/-- C3 (amended): every Container-variant line satisfies
`amount = rnd 2 (price × quantity)`, also after enrichment (which changes
only `kiz_codes`); a Shipment-variant line instead carries the exact,
unrounded product `price × quantity`. -/
theorem c3_amount_amended :
    (∀ ps : List ProductLine, ∀ l ∈ DataProcessor.process ps,
       l.amount = rnd 2 (l.price * (l.quantity : ℚ))) ∧
    (∀ (idx : KMIndex) (ls : List OutputLine),
       (enrich_with_km_codes idx ls).map eraseCodes = ls.map eraseCodes) ∧
    (∀ (ps : List ProductLine) (idx : KMIndex),
       ∀ l ∈ enrich_with_km_codes idx (DataProcessor.process ps),
         l.amount = rnd 2 (l.price * (l.quantity : ℚ))) ∧
    (∀ sl : ShipmentLine,
       (ShipmentProcessor.convert_to_output sl).amount =
         (ShipmentProcessor.convert_to_output sl).price *
           ((ShipmentProcessor.convert_to_output sl).quantity : ℚ)) := by
  have hcreate : ∀ (p : ProductLine) (cat : String) (q : Int),
      (DataProcessor.create_output_line p cat q).amount =
        rnd 2 ((DataProcessor.create_output_line p cat q).price *
          (((DataProcessor.create_output_line p cat q).quantity : Int) : ℚ)) := by
    intro p cat q
    simp [DataProcessor.create_output_line]
  refine ⟨?_, enrich_eraseCodes, ?_, ?_⟩
  · intro ps l hl
    obtain ⟨p, cat, q, rfl⟩ := mem_process ps l hl
    exact hcreate p cat q
  · intro ps idx l hl
    unfold enrich_with_km_codes at hl
    rcases List.mem_map.mp hl with ⟨l0, hl0, rfl⟩
    obtain ⟨p, cat, q, rfl⟩ := mem_process ps l0 hl0
    dsimp only
    split
    · exact hcreate p cat q
    · exact hcreate p cat q
  · intro sl
    simp [ShipmentProcessor.convert_to_output, ShipmentLine.total_amount]

/-- A Shipment row whose price has three decimal places. -/
def shipPrice : ShipmentLine where
  row_number := 2
  article := "SU29133-1R"
  brand := "V.I.KONTY"
  hs_code := "6403911100"
  shoe_type := "Ботинки женские"
  material := "нат.замша"
  color := "чёрный"
  lining := "текстиль"
  sole := "нитрилкаучук"
  heel_height := "невыс."
  shaft_height := "12cm"
  composition := none
  perforation := "без"
  size := 36
  halfpair_type := "левый полупарок"
  halfpairs_loaded := 1
  box_group := some 1
  boxes_in_group := some 1
  net_weight_per_unit := 37/100
  gross_weight_per_box := some (154/10)
  box_volume := none
  price := 1234/1000

unseal Rat.mul Rat.inv Rat.add Rat.sub in
/-- C3 counterexample: a Shipment-variant line whose `amount` is the exact
product `1.234` and differs from `price × quantity` rounded to 2 decimals
(`1.23`), refuting the claim for the Shipment variant. -/
theorem c3_counterexample :
    ((ShipmentProcessor.process [shipPrice]).getD 0 defaultOutputLine).amount ≠
      rnd 2
        (((ShipmentProcessor.process [shipPrice]).getD 0
            defaultOutputLine).price *
          ((((ShipmentProcessor.process [shipPrice]).getD 0
              defaultOutputLine).quantity : Int) : ℚ)) := by
  decide
/- `Rat.mul`/`Rat.inv`/`Rat.add`/`Rat.sub` are `@[irreducible]`; the
`unseal` above lets `decide` evaluate the concrete rational arithmetic. -/

/-- Witness for C3 (amended): the container part with membership discharged
at the worked example. -/
theorem c3_amount_amended_witness :
    ((DataProcessor.process [p1]).getD 0 defaultOutputLine).amount =
      rnd 2 (((DataProcessor.process [p1]).getD 0 defaultOutputLine).price *
        ((((DataProcessor.process [p1]).getD 0
            defaultOutputLine).quantity : Int) : ℚ)) :=
  c3_amount_amended.1 [p1] _
    (getD_mem (DataProcessor.process [p1]) 0 defaultOutputLine (by decide))

/-- A filtered sum of nonnegative quantities is at most the full sum. -/
theorem sum_filter_le_sum (pred : Nat × Int → Bool) :
    ∀ l : List (Nat × Int), (∀ sq ∈ l, 0 ≤ sq.2) →
      ((l.filter pred).map Prod.snd).sum ≤ (l.map Prod.snd).sum := by
  intro l
  induction l with
  | nil => simp
  | cons x rest ih =>
      intro h
      have hx := h x (List.mem_cons_self x rest)
      have ihr := ih (fun sq hs => h sq (List.mem_cons_of_mem x hs))
      by_cases hp : pred x = true
      · simp only [List.filter_cons, hp, if_pos, List.map_cons, List.sum_cons]
        omega
      · simp only [List.filter_cons, hp, if_neg, Bool.false_eq_true,
          not_false_eq_true, List.map_cons, List.sum_cons]
        omega

/-- A filtered sum of nonnegative quantities is nonnegative. -/
theorem sum_filter_nonneg (pred : Nat × Int → Bool) (l : List (Nat × Int))
    (h : ∀ sq ∈ l, 0 ≤ sq.2) :
    0 ≤ ((l.filter pred).map Prod.snd).sum := by
  apply List.sum_nonneg
  intro x hx
  rcases List.mem_map.mp hx with ⟨sq, hsq, rfl⟩
  exact h sq (List.mem_of_mem_filter hsq)

/-- C8 (amended): a Container record with nonnegative size quantities and
zero total produces no line, while the Shipment processor emits exactly one
line per input row regardless of its quantity. -/
theorem c8_zero_quantity_amended :
    (∀ p : ProductLine, (∀ sq ∈ p.qty_by_size, 0 ≤ sq.2) →
       p.total_pairs = 0 → DataProcessor.process [p] = []) ∧
    (∀ sl : ShipmentLine, (ShipmentProcessor.process [sl]).length = 1) := by
  constructor
  · intro p hpos htot
    rw [DataProcessor.process_singleton]
    have hle := sum_filter_le_sum
      (fun sq => decide (sq.1 ∈ ([35, 36, 37] : List Nat))) p.qty_by_size hpos
    have hgt := sum_filter_le_sum
      (fun sq => decide (sq.1 ∈ ([38, 39, 40, 41, 42] : List Nat)))
      p.qty_by_size hpos
    have h1 : ¬ p.pairs_le24 > 0 := by
      unfold ProductLine.pairs_le24
      unfold ProductLine.total_pairs at htot
      omega
    have h2 : ¬ p.pairs_gt24 > 0 := by
      unfold ProductLine.pairs_gt24
      unfold ProductLine.total_pairs at htot
      omega
    have h3 : ¬ p.total_pairs > 0 := by omega
    unfold DataProcessor.splitProduct
    split_ifs <;> simp_all
  · intro sl
    simp [ShipmentProcessor.process]

/-- A Shipment row with zero loaded half-pairs. -/
def shipZero : ShipmentLine where
  row_number := 4
  article := "SU29133-1R"
  brand := "V.I.KONTY"
  hs_code := "6403911100"
  shoe_type := "Ботинки женские"
  material := "нат.замша"
  color := "чёрный"
  lining := "текстиль"
  sole := "нитрилкаучук"
  heel_height := "невыс."
  shaft_height := "12cm"
  composition := none
  perforation := "без"
  size := 36
  halfpair_type := "левый полупарок"
  halfpairs_loaded := 0
  box_group := some 1
  boxes_in_group := some 1
  net_weight_per_unit := 37/100
  gross_weight_per_box := some (154/10)
  box_volume := none
  price := 10

/-- C8 counterexample: a Shipment record with zero total quantity still
produces an output line (of quantity 0), refuting the claim for the
Shipment variant. -/
theorem c8_counterexample :
    shipZero.halfpairs_loaded = 0 ∧
    (ShipmentProcessor.process [shipZero]).length = 1 ∧
    ((ShipmentProcessor.process [shipZero]).getD 0
        defaultOutputLine).quantity = 0 :=
  ⟨rfl, rfl, rfl⟩

/-- Witness for C8 (amended): the Container half at a zero-quantity
product. -/
theorem c8_zero_quantity_amended_witness : DataProcessor.process [p8] = [] :=
  c8_zero_quantity_amended.1 p8 (by decide) (by decide)

/-- C9: a reference dataset with fewer than 4 columns makes the loader
raise (no partial index is returned), and the orchestration layer catches
the error and generates documents from the unenriched lines, whose
marking-code lists are all empty. -/
theorem c9_malformed_reference (ncols : Nat) (rows : List KMLoader.KMRow)
    (ps : List ProductLine) (h : ncols < 4) :
    KMLoader.load ncols rows =
      Except.error "Ожидается минимум 4 колонки" ∧
    processWithKm ncols rows (DataProcessor.process ps) =
      DataProcessor.process ps ∧
    (∀ l ∈ DataProcessor.process ps, l.kiz_codes = []) := by
  have hload : KMLoader.load ncols rows =
      Except.error "Ожидается минимум 4 колонки" := by
    simp [KMLoader.load, h]
  refine ⟨hload, ?_, ?_⟩
  · simp [processWithKm, hload]
  · intro l hl
    obtain ⟨p, cat, q, rfl⟩ := mem_process ps l hl
    simp [DataProcessor.create_output_line]

/-- Witness for C9 at a 3-column dataset. -/
theorem c9_malformed_reference_witness :
    KMLoader.load 3 [] = Except.error "Ожидается минимум 4 колонки" :=
  (c9_malformed_reference 3 [] [p1] (by decide)).1

/-- First record of the C10 scenario: same article as `recB`, differing
tariff codes, quantity only in the small band, 3 declared boxes. -/
def recA : ProductLine where
  row_number := 2
  brand := "V.I.KONTY"
  article := "BF25086-1"
  code_raw := "6403911100/6403911800"
  hs_code_le24 := "6403911100"
  hs_code_gt24 := "6403911800"
  name := "Полуботинки женские"
  material := "нат.кожа"
  color := "бежевый"
  lining := "текстиль"
  sole := "ТЭП"
  heel_height := "низкий"
  composition := none
  price := 12
  boxes := 3
  net_weight_per_pair := 2/5
  gross_weight_per_box := 14
  qty_by_size := [(35, 10)]

/-- Second record of the C10 scenario: same article as `recA`, differing
tariff codes, quantity only in the large band, 5 declared boxes. -/
def recB : ProductLine where
  row_number := 3
  brand := "V.I.KONTY"
  article := "BF25086-1"
  code_raw := "6403911100/6403911800"
  hs_code_le24 := "6403911100"
  hs_code_gt24 := "6403911800"
  name := "Полуботинки женские"
  material := "нат.кожа"
  color := "бежевый"
  lining := "текстиль"
  sole := "ТЭП"
  heel_height := "низкий"
  composition := none
  price := 12
  boxes := 5
  net_weight_per_pair := 2/5
  gross_weight_per_box := 14
  qty_by_size := [(40, 20)]

/-- C10: two distinct records sharing an article — the first emitting only
a ≤24cm line, the second only a >24cm line — are merged by the renderers:
the second record's only line is classified as a continuation of the first
record's only line, the box total counts only the first record's boxes,
and the merged box cell displays the second record's `original_boxes`. -/
theorem c10_cross_record_merge :
    (DataProcessor.process [recA, recB]).length = 2 ∧
    (InvoiceGenerator.generateTotals
        (DataProcessor.process [recA, recB])).flags = [false, true] ∧
    (InvoiceGenerator.generateTotals
        (DataProcessor.process [recA, recB])).total_boxes = recA.boxes ∧
    InvoiceGenerator.boxCells (DataProcessor.process [recA, recB]) =
      [some recB.boxes, none] ∧
    ((DataProcessor.process [recA, recB]).getD 1
        defaultOutputLine).original_boxes = recB.boxes := by
  refine ⟨by decide, by decide, by decide, by decide, by decide⟩

/-- Keys present after an `indexAppend`: the appended key, or a previously
present key. -/
theorem indexLookup_indexAppend (key : String × Int) (km : String) :
    ∀ (idx : KMIndex) (k : String × Int),
      indexLookup (indexAppend idx key km) k ≠ none ↔
        (k = key ∨ indexLookup idx k ≠ none) := by
  intro idx
  induction idx with
  | nil =>
      intro k
      by_cases h : key = k
      · subst h
        simp [indexAppend, indexLookup]
      · have h' : ¬ k = key := fun hh => h hh.symm
        simp [indexAppend, indexLookup, h, h']
  | cons e rest ih =>
      intro k
      obtain ⟨a, v⟩ := e
      have happ : indexAppend ((a, v) :: rest) key km =
          if a = key then (a, v ++ [km]) :: rest
          else (a, v) :: indexAppend rest key km := rfl
      rw [happ]
      by_cases hak : a = key
      · subst hak
        rw [if_pos rfl]
        by_cases hk : a = k
        · subst hk
          simp [indexLookup]
        · have hk' : ¬ k = a := fun hh => hk hh.symm
          simp [indexLookup, hk, hk']
      · rw [if_neg hak]
        by_cases hk : a = k
        · subst hk
          simp [indexLookup]
        · simp [indexLookup, hk, ih k]

/-- `buildStep` skips a row with no extractable article. -/
theorem buildStep_no_article (idx : KMIndex) (row : KMLoader.KMRow)
    (h : KMLoader.extract_article row.nomenclature = none) :
    KMLoader.buildStep idx row = idx := by
  unfold KMLoader.buildStep
  rw [h]

/-- `buildStep` skips a row with an absent marking code. -/
theorem buildStep_no_km (idx : KMIndex) (row : KMLoader.KMRow) (a : String)
    (hext : KMLoader.extract_article row.nomenclature = some a)
    (h : row.km = none) : KMLoader.buildStep idx row = idx := by
  unfold KMLoader.buildStep
  rw [hext, h]

/-- `buildStep` on a fully extracted row appends under the raw extracted
key when the article is nonempty. -/
theorem buildStep_some (idx : KMIndex) (row : KMLoader.KMRow) (a km : String)
    (hext : KMLoader.extract_article row.nomenclature = some a)
    (hkm : row.km = some km) :
    KMLoader.buildStep idx row =
      if a ≠ "" then indexAppend idx (a, row.size) km else idx := by
  unfold KMLoader.buildStep
  rw [hext, hkm]

/-- Keys of the index built by the loading loop come from the raw extracted
article and the row's size. -/
theorem buildIndex_keys_aux :
    ∀ (rows : List KMLoader.KMRow) (acc : KMIndex) (k : String × Int),
      indexLookup (List.foldl KMLoader.buildStep acc rows) k ≠ none →
      indexLookup acc k ≠ none ∨
        ∃ row ∈ rows,
          KMLoader.extract_article row.nomenclature = some k.1 ∧
          row.km ≠ none ∧ k.2 = row.size ∧ k.1 ≠ "" := by
  intro rows
  induction rows with
  | nil => intro acc k h; exact Or.inl h
  | cons r rest ih =>
      intro acc k h
      rcases ih (KMLoader.buildStep acc r) k h with h' | ⟨row, hrow, hprops⟩
      · rcases hext : KMLoader.extract_article r.nomenclature with _ | a
        · rw [buildStep_no_article acc r hext] at h'
          exact Or.inl h'
        · rcases hkm : r.km with _ | km
          · rw [buildStep_no_km acc r a hext hkm] at h'
            exact Or.inl h'
          · rw [buildStep_some acc r a km hext hkm] at h'
            by_cases ha : a ≠ ""
            · rw [if_pos ha] at h'
              rcases (indexLookup_indexAppend (a, r.size) km acc k).mp h' with
                hk | hacc
              · refine Or.inr ⟨r, List.mem_cons_self r rest, ?_⟩
                subst hk
                exact ⟨hext, by simp [hkm], rfl, ha⟩
              · exact Or.inl hacc
            · rw [if_neg ha] at h'
              exact Or.inl h'
      · exact Or.inr ⟨row, List.mem_cons_of_mem r hrow, hprops⟩

/-- C7 (amended): every key of the built index is `(a, size)` for some
dataset row whose *raw extracted* article is exactly `a` — no packaging
suffix is stripped at build time; normalization is applied only at query
time, so a dataset article ending in a known suffix stays under its
suffixed key. -/
theorem c7_build_keys_amended (rows : List KMLoader.KMRow)
    (k : String × Int)
    (h : indexLookup (KMLoader.buildIndex rows) k ≠ none) :
    ∃ row ∈ rows,
      KMLoader.extract_article row.nomenclature = some k.1 ∧
      row.km ≠ none ∧ k.2 = row.size ∧ k.1 ≠ "" := by
  rcases buildIndex_keys_aux rows [] k h with h' | h'
  · simp [indexLookup] at h'
  · exact h'

/-- A reference-dataset row whose nomenclature carries a packaging suffix
directly after the article. -/
def kmRow0 : KMLoader.KMRow where
  nomenclature := "Туфли женские арт.GL24136-1PRG(чёрные)"
  size := 35
  gtin := "04600000000001"
  km := some "KM1"

/-- C7 counterexample: the row is indexed under the raw extracted key
`("GL24136-1PRG", 35)`, whose article component still ends in the known
suffix `PRG` and differs from its normalized form `"GL24136-1"` — so build
keys are not normalized. -/
theorem c7_counterexample :
    KMLoader.buildIndex [kmRow0] = [(("GL24136-1PRG", 35), ["KM1"])] ∧
    KMLoader.normalize_article "GL24136-1PRG" = "GL24136-1" ∧
    ("GL24136-1PRG" : String) ≠ "GL24136-1" :=
  ⟨by decide, by decide, by decide⟩

/-- Witness for C7 (amended) at the concrete one-row dataset. -/
theorem c7_build_keys_amended_witness :
    ∃ row ∈ [kmRow0],
      KMLoader.extract_article row.nomenclature =
        some (("GL24136-1PRG", (35 : Int)) : String × Int).1 ∧
      row.km ≠ none ∧
      (("GL24136-1PRG", (35 : Int)) : String × Int).2 = row.size ∧
      (("GL24136-1PRG", (35 : Int)) : String × Int).1 ≠ "" :=
  c7_build_keys_amended [kmRow0] ("GL24136-1PRG", 35) (by decide)

/-! ## Lemmas about article normalization (claim C6) -/

/-- Lower-casing distributes over append. -/
theorem lowerList_append (x y : List Char) :
    lowerList (x ++ y) = lowerList x ++ lowerList y :=
  List.map_append Char.toLower x y

/-- A suffix of `v ++ w` having the length of `w` is `w` itself. -/
theorem suffix_append_iff_len (u v w : List Char) (h : u.length = w.length) :
    u <:+ v ++ w ↔ u = w := by
  constructor
  · rintro ⟨p, hp⟩
    have hlen : p.length = v.length := by
      have := congrArg List.length hp
      simp only [List.length_append] at this
      omega
    exact ((List.append_inj hp hlen).2).symm ▸ rfl
  · rintro rfl
    exact ⟨v, rfl⟩

/-- `dropWhile` over an append whose left part is entirely dropped. -/
theorem dropWhile_append_left_nil (p : Char → Bool) :
    ∀ (x z : List Char), x.dropWhile p = [] →
      (x ++ z).dropWhile p = z.dropWhile p := by
  intro x
  induction x with
  | nil => intro z _; rfl
  | cons c rest ih =>
      intro z h
      rw [List.dropWhile_cons] at h
      by_cases hc : p c = true
      · rw [List.cons_append, List.dropWhile_cons, if_pos hc]
        exact ih z (by rwa [if_pos hc] at h)
      · rw [if_neg hc] at h
        exact absurd h (by simp)

/-- `dropWhile` over an append whose left part is not entirely dropped. -/
theorem dropWhile_append_left_ne_nil (p : Char → Bool) :
    ∀ (x z : List Char), x.dropWhile p ≠ [] →
      (x ++ z).dropWhile p = x.dropWhile p ++ z := by
  intro x
  induction x with
  | nil => intro z h; exact absurd rfl h
  | cons c rest ih =>
      intro z h
      rw [List.dropWhile_cons] at h
      by_cases hc : p c = true
      · rw [if_pos hc] at h
        rw [List.cons_append, List.dropWhile_cons, if_pos hc,
          List.dropWhile_cons, if_pos hc]
        exact ih z h
      · rw [List.cons_append, List.dropWhile_cons, if_neg hc,
          List.dropWhile_cons, if_neg hc]
        rfl

/-- `dropWhile` ignores a leading block that entirely satisfies the
predicate. -/
theorem dropWhile_append_all (p : Char → Bool) :
    ∀ (w z : List Char), (∀ c ∈ w, p c = true) →
      (w ++ z).dropWhile p = z.dropWhile p := by
  intro w
  induction w with
  | nil => intro z _; rfl
  | cons c rest ih =>
      intro z h
      rw [List.cons_append, List.dropWhile_cons,
        if_pos (h c (List.mem_cons_self c rest))]
      exact ih z (fun d hd => h d (List.mem_cons_of_mem c hd))

/-- `dropWhile` is idempotent. -/
theorem dropWhile_idem (p : Char → Bool) :
    ∀ z : List Char, (z.dropWhile p).dropWhile p = z.dropWhile p := by
  intro z
  induction z with
  | nil => rfl
  | cons c rest ih =>
      rw [List.dropWhile_cons]
      by_cases hc : p c = true
      · rw [if_pos hc]; exact ih
      · rw [if_neg hc, List.dropWhile_cons, if_neg hc]

/-- Removing trailing whitespace leaves a word-final list unchanged
(three-character suffix whose last character is not whitespace). -/
theorem dropTrailingWs_append3 (x : List Char) (a b c : Char)
    (hc : isPySpace c = false) :
    dropTrailingWs (x ++ [a, b, c]) = x ++ [a, b, c] := by
  unfold dropTrailingWs
  rw [List.reverse_append]
  have : ([a, b, c] : List Char).reverse = [c, b, a] := rfl
  rw [this, List.cons_append, List.dropWhile_cons, hc]
  simp

/-- Removing trailing whitespace absorbs an appended whitespace block. -/
theorem dropTrailingWs_append_spaces (x w : List Char)
    (hw : ∀ c ∈ w, isPySpace c = true) :
    dropTrailingWs (x ++ w) = dropTrailingWs x := by
  unfold dropTrailingWs
  rw [List.reverse_append, dropWhile_append_all isPySpace w.reverse x.reverse
    (fun c hc => hw c (List.mem_reverse.mp hc))]

/-- Removing trailing whitespace is idempotent. -/
theorem dropTrailingWs_idem (l : List Char) :
    dropTrailingWs (dropTrailingWs l) = dropTrailingWs l := by
  unfold dropTrailingWs
  rw [List.reverse_reverse, dropWhile_idem]

/-- The trailing-whitespace block removed by `dropTrailingWs`. -/
def trailingWs (l : List Char) : List Char :=
  (l.reverse.takeWhile isPySpace).reverse

/-- Every list splits into its trailing-whitespace-free front and its
trailing whitespace. -/
theorem dropTrailingWs_append_trailingWs (l : List Char) :
    dropTrailingWs l ++ trailingWs l = l := by
  unfold dropTrailingWs trailingWs
  rw [← List.reverse_append, List.takeWhile_append_dropWhile,
    List.reverse_reverse]

/-- The trailing block is whitespace. -/
theorem trailingWs_spaces (l : List Char) :
    ∀ c ∈ trailingWs l, isPySpace c = true := by
  intro c hc
  exact List.mem_takeWhile_imp (List.mem_reverse.mp hc)

/-- A suffix pass with a non-matching suffix is the identity. -/
theorem strip_noop_of_not (s' t : List Char)
    (h : ¬ lowerList s' <:+ lowerList t) :
    KMLoader.stripSuffixOnce s' t = t :=
  if_neg h

/-- A suffix pass leaves `x ++ suf'` unchanged when `s'` differs
(case-insensitively) from the equal-length suffix `suf'`. -/
theorem strip_noop_ne (s' x suf' : List Char)
    (hlen : s'.length = suf'.length)
    (hne : lowerList s' ≠ lowerList suf') :
    KMLoader.stripSuffixOnce s' (x ++ suf') = x ++ suf' := by
  apply if_neg
  intro hsuf
  rw [lowerList_append] at hsuf
  have hl : (lowerList s').length = (lowerList suf').length := by
    simp [lowerList, hlen]
  exact hne ((suffix_append_iff_len _ _ _ hl).mp hsuf)

/-- A suffix pass on `x ++ suf'` with the (case-insensitively) matching
suffix removes `suf'` and the trailing whitespace of `x`. -/
theorem strip_hit (s' x suf' : List Char)
    (hlen : s'.length = suf'.length)
    (heq : lowerList s' = lowerList suf') :
    KMLoader.stripSuffixOnce s' (x ++ suf') = dropTrailingWs x := by
  unfold KMLoader.stripSuffixOnce
  rw [if_pos (by rw [lowerList_append, heq]; exact ⟨lowerList x, rfl⟩)]
  congr 1
  apply List.take_left'
  simp only [List.length_append]
  omega

/-- The five suffix passes are the identity on a list that ends
(case-insensitively) in none of the packaging suffixes. -/
theorem fold_strip_noop (t : List Char)
    (h : ∀ s' ∈ KMLoader.packaging_suffixes,
      ¬ lowerList s' <:+ lowerList t) :
    KMLoader.packaging_suffixes.foldl
      (fun acc suf => KMLoader.stripSuffixOnce suf acc) t = t := by
  simp only [KMLoader.packaging_suffixes, List.foldl]
  rw [strip_noop_of_not _ t (h _ (by decide)),
    strip_noop_of_not _ t (h _ (by decide)),
    strip_noop_of_not _ t (h _ (by decide)),
    strip_noop_of_not _ t (h _ (by decide)),
    strip_noop_of_not _ t (h _ (by decide))]

/-- The five suffix passes on `t ++ whitespace ++ suffix` recover `t` when
`t` carries no trailing whitespace and ends in no packaging suffix. -/
theorem fold_strip_appended (t w sep suf' : List Char)
    (hw : ∀ c ∈ w, isPySpace c = true)
    (hsep : ∀ c ∈ sep, isPySpace c = true)
    (hsuf : suf' ∈ KMLoader.packaging_suffixes)
    (ht : ∀ s' ∈ KMLoader.packaging_suffixes,
      ¬ lowerList s' <:+ lowerList t)
    (htrail : dropTrailingWs t = t) :
    KMLoader.packaging_suffixes.foldl
      (fun acc suf => KMLoader.stripSuffixOnce suf acc)
      (t ++ (w ++ sep) ++ suf') = t := by
  have hws : ∀ c ∈ w ++ sep, isPySpace c = true := by
    intro c hc
    rcases List.mem_append.mp hc with h | h
    · exact hw c h
    · exact hsep c h
  simp only [KMLoader.packaging_suffixes, List.mem_cons,
    List.not_mem_nil, or_false] at hsuf
  rcases hsuf with rfl | rfl | rfl | rfl | rfl <;>
    simp only [KMLoader.packaging_suffixes, List.foldl]
  · rw [strip_hit ['P', 'R', 'G'] (t ++ (w ++ sep)) ['P', 'R', 'G'] rfl rfl,
      dropTrailingWs_append_spaces t (w ++ sep) hws, htrail,
      strip_noop_of_not ['B', 'O', 'X'] t (ht _ (by decide)),
      strip_noop_of_not ['P', 'K', 'G'] t (ht _ (by decide)),
      strip_noop_of_not ['C', 'T', 'N'] t (ht _ (by decide)),
      strip_noop_of_not ['P', 'C', 'S'] t (ht _ (by decide))]
  · rw [strip_noop_ne ['P', 'R', 'G'] (t ++ (w ++ sep)) ['B', 'O', 'X'] rfl
        (by decide),
      strip_hit ['B', 'O', 'X'] (t ++ (w ++ sep)) ['B', 'O', 'X'] rfl rfl,
      dropTrailingWs_append_spaces t (w ++ sep) hws, htrail,
      strip_noop_of_not ['P', 'K', 'G'] t (ht _ (by decide)),
      strip_noop_of_not ['C', 'T', 'N'] t (ht _ (by decide)),
      strip_noop_of_not ['P', 'C', 'S'] t (ht _ (by decide))]
  · rw [strip_noop_ne ['P', 'R', 'G'] (t ++ (w ++ sep)) ['P', 'K', 'G'] rfl
        (by decide),
      strip_noop_ne ['B', 'O', 'X'] (t ++ (w ++ sep)) ['P', 'K', 'G'] rfl
        (by decide),
      strip_hit ['P', 'K', 'G'] (t ++ (w ++ sep)) ['P', 'K', 'G'] rfl rfl,
      dropTrailingWs_append_spaces t (w ++ sep) hws, htrail,
      strip_noop_of_not ['C', 'T', 'N'] t (ht _ (by decide)),
      strip_noop_of_not ['P', 'C', 'S'] t (ht _ (by decide))]
  · rw [strip_noop_ne ['P', 'R', 'G'] (t ++ (w ++ sep)) ['C', 'T', 'N'] rfl
        (by decide),
      strip_noop_ne ['B', 'O', 'X'] (t ++ (w ++ sep)) ['C', 'T', 'N'] rfl
        (by decide),
      strip_noop_ne ['P', 'K', 'G'] (t ++ (w ++ sep)) ['C', 'T', 'N'] rfl
        (by decide),
      strip_hit ['C', 'T', 'N'] (t ++ (w ++ sep)) ['C', 'T', 'N'] rfl rfl,
      dropTrailingWs_append_spaces t (w ++ sep) hws, htrail,
      strip_noop_of_not ['P', 'C', 'S'] t (ht _ (by decide))]
  · rw [strip_noop_ne ['P', 'R', 'G'] (t ++ (w ++ sep)) ['P', 'C', 'S'] rfl
        (by decide),
      strip_noop_ne ['B', 'O', 'X'] (t ++ (w ++ sep)) ['P', 'C', 'S'] rfl
        (by decide),
      strip_noop_ne ['P', 'K', 'G'] (t ++ (w ++ sep)) ['P', 'C', 'S'] rfl
        (by decide),
      strip_noop_ne ['C', 'T', 'N'] (t ++ (w ++ sep)) ['P', 'C', 'S'] rfl
        (by decide),
      strip_hit ['P', 'C', 'S'] (t ++ (w ++ sep)) ['P', 'C', 'S'] rfl rfl,
      dropTrailingWs_append_spaces t (w ++ sep) hws, htrail]

/-- A packaging suffix ends in a non-whitespace character, so appending it
leaves nothing to trim. -/
theorem dropTrailingWs_append_suffix (x suf' : List Char)
    (hsuf : suf' ∈ KMLoader.packaging_suffixes) :
    dropTrailingWs (x ++ suf') = x ++ suf' := by
  simp only [KMLoader.packaging_suffixes, List.mem_cons,
    List.not_mem_nil, or_false] at hsuf
  rcases hsuf with rfl | rfl | rfl | rfl | rfl <;>
    exact dropTrailingWs_append3 x _ _ _ (by decide)

/-- Appending a separating space (or nothing) and a packaging suffix to an
article that ends in no packaging suffix normalizes to the normalization
of the article itself. -/
theorem normalize_articleL_append (la suf' sep : List Char)
    (hsuf : suf' ∈ KMLoader.packaging_suffixes)
    (hsep : sep = [] ∨ sep = [' '])
    (h : ∀ s' ∈ KMLoader.packaging_suffixes,
      ¬ lowerList s' <:+ lowerList (pyStrip la)) :
    KMLoader.normalize_articleL (la ++ sep ++ suf') =
      KMLoader.normalize_articleL la := by
  have hsufne : suf' ≠ [] := by
    intro heq
    rw [heq] at hsuf
    revert hsuf
    decide
  have hne : la ++ sep ++ suf' ≠ [] := by
    intro heq
    rcases List.append_eq_nil.mp heq with ⟨-, h2⟩
    exact hsufne h2
  have hsepsp : ∀ c ∈ sep, isPySpace c = true := by
    rcases hsep with rfl | rfl
    · intro c hc
      exact absurd hc (List.not_mem_nil c)
    · intro c hc
      rw [List.mem_singleton] at hc
      subst hc
      rfl
  by_cases hla : la = []
  · subst hla
    rcases hsep with rfl | rfl <;>
      (simp only [KMLoader.packaging_suffixes, List.mem_cons,
        List.not_mem_nil, or_false] at hsuf
       rcases hsuf with rfl | rfl | rfl | rfl | rfl <;> decide)
  · by_cases hdw : la.dropWhile isPySpace = []
    · have hps : pyStrip la = [] := by
        unfold pyStrip
        rw [hdw]
        rfl
      have hRHS : KMLoader.normalize_articleL la = [] := by
        unfold KMLoader.normalize_articleL
        rw [if_neg hla, hps]
        exact fold_strip_noop [] (by decide)
      rw [hRHS]
      unfold KMLoader.normalize_articleL
      rw [if_neg hne]
      unfold pyStrip
      rw [List.append_assoc la sep suf',
        dropWhile_append_left_nil isPySpace la (sep ++ suf') hdw]
      rcases hsep with rfl | rfl <;>
        (simp only [KMLoader.packaging_suffixes, List.mem_cons,
          List.not_mem_nil, or_false] at hsuf
         rcases hsuf with rfl | rfl | rfl | rfl | rfl <;> decide)
    · have hdecomp :=
        dropTrailingWs_append_trailingWs (la.dropWhile isPySpace)
      have htrail : dropTrailingWs (pyStrip la) = pyStrip la := by
        unfold pyStrip
        exact dropTrailingWs_idem (la.dropWhile isPySpace)
      have hLHSstrip : pyStrip (la ++ sep ++ suf') =
          pyStrip la ++ (trailingWs (la.dropWhile isPySpace) ++ sep) ++
            suf' := by
        unfold pyStrip
        rw [List.append_assoc la sep suf',
          dropWhile_append_left_ne_nil isPySpace la (sep ++ suf') hdw,
          ← List.append_assoc (la.dropWhile isPySpace) sep suf',
          dropTrailingWs_append_suffix _ suf' hsuf,
          ← List.append_assoc (dropTrailingWs (la.dropWhile isPySpace))
            (trailingWs (la.dropWhile isPySpace)) sep,
          hdecomp]
      unfold KMLoader.normalize_articleL
      rw [if_neg hne, if_neg hla, hLHSstrip,
        fold_strip_appended (pyStrip la)
          (trailingWs (la.dropWhile isPySpace)) sep suf'
          (trailingWs_spaces _) hsepsp hsuf h htrail,
        fold_strip_noop (pyStrip la) h]

/-- A one-entry index under the bare article `"Z"`. -/
def idxZ : KMIndex := [(("Z", 35), ["C1"])]

/-- C6 counterexample: for the article `"Z PRG"` — which itself ends in a
known packaging suffix — appending the known suffix `"BOX"` changes the
query result: the suffix passes run once each in fixed order, so
`"Z PRG BOX"` normalizes to `"Z PRG"` while `"Z PRG"` normalizes to
`"Z"`. -/
theorem c6_counterexample :
    ("BOX" : String) ∈ (["PRG", "BOX", "PKG", "CTN", "PCS"] : List String) ∧
    KMLoader.get_km_codes idxZ ("Z PRG" ++ " " ++ "BOX") [35] ≠
      KMLoader.get_km_codes idxZ "Z PRG" [35] :=
  ⟨by decide, by decide⟩

/-- C6 (amended): when the trimmed article ends (case-insensitively) in no
known packaging suffix, appending any known suffix — with or without a
separating space — does not change the result of `get_km_codes`. -/
theorem c6_roundtrip_amended (idx : KMIndex) (a sufS sepS : String)
    (hsuf : sufS ∈ (["PRG", "BOX", "PKG", "CTN", "PCS"] : List String))
    (hsep : sepS = "" ∨ sepS = " ")
    (h : ∀ s' ∈ KMLoader.packaging_suffixes,
      ¬ lowerList s' <:+ lowerList (pyStrip a.toList))
    (sizes : List Int) :
    KMLoader.get_km_codes idx (a ++ sepS ++ sufS) sizes =
      KMLoader.get_km_codes idx a sizes := by
  have htl : (a ++ sepS ++ sufS).toList =
      a.toList ++ sepS.toList ++ sufS.toList := by
    simp [String.toList]
  have hsuf' : sufS.toList ∈ KMLoader.packaging_suffixes := by
    fin_cases hsuf <;> decide
  have hsep' : sepS.toList = [] ∨ sepS.toList = [' '] := by
    rcases hsep with rfl | rfl
    · exact Or.inl rfl
    · exact Or.inr rfl
  have hnorm : KMLoader.normalize_article (a ++ sepS ++ sufS) =
      KMLoader.normalize_article a := by
    unfold KMLoader.normalize_article
    rw [htl,
      normalize_articleL_append a.toList sufS.toList sepS.toList hsuf'
        hsep' h]
  unfold KMLoader.get_km_codes
  rw [hnorm]

/-- A one-entry index under the normalized article `"GL24136-1"`. -/
def idxGL : KMIndex := [(("GL24136-1", 35), ["KM1"])]

/-- Witness for C6 (amended) at a suffix-free article. -/
theorem c6_roundtrip_amended_witness :
    KMLoader.get_km_codes idxGL ("GL24136-1" ++ " " ++ "PRG") [35] =
      KMLoader.get_km_codes idxGL "GL24136-1" [35] :=
  c6_roundtrip_amended idxGL "GL24136-1" "PRG" " " (by decide)
    (Or.inr rfl) (by decide) [35]
